import Mathlib

/-!
Verification of `symonk/solid-principles-and-patterns-in-python`.

Shallow embedding of three modules of the repository:

* `src/patterns/behavioural/publish_subscribe_pattern.py`
  (`Provider`, `Publisher`): namespace `PubSub`.
* `src/patterns/creational/borg_pattern.py`
  (`BorgMixin`, `SharedState`): namespace `Borg`.
* `src/patterns/creational/factory_pattern_dynamic_registration.py`
  (`Localizable.__init_subclass__`, `get_localizer`): namespace `Factory`.

Python dicts are modelled as insertion-ordered association lists with
unique keys; Python exceptions as `Except` values that carry the object
state at the moment of the raise (Python mutations performed before the
raise remain visible to the caller).
-/

namespace PubSub

/-- Topics / messages are Python strings. -/
abbrev Topic := String

/-- Lookup in an insertion-ordered Python dict (`d[k]` respectively
`d.get(k)` modelled as an association list scan). -/
def dictFind {α : Type} (d : List (Topic × α)) (k : Topic) : Option α :=
  match d with
  | [] => none
  | (k₀, v) :: rest => if k₀ = k then some v else dictFind rest k

/-- Lookup with a default, `d.get(k, default)`. -/
def dictGetD {α : Type} (d : List (Topic × α)) (k : Topic) (dflt : α) : α :=
  (dictFind d k).getD dflt

/-- Model of `self.subscribers.setdefault(message, []).append(subscriber)`:
append `s` to the list stored at key `k`, inserting `(k, [s])` at the end
of the dict when `k` is absent. -/
def dictSetdefaultAppend {α : Type} (d : List (Topic × List α)) (k : Topic) (s : α) :
    List (Topic × List α) :=
  match d with
  | [] => [(k, [s])]
  | (k₀, v) :: rest =>
    if k₀ = k then (k₀, v ++ [s]) :: rest
    else (k₀, v) :: dictSetdefaultAppend rest k s

/-- Replace the value stored at an existing key, leaving the dict
untouched when the key is absent (models an in-place mutation of the
list object obtained from `d[k]`). -/
def dictSetExisting {α : Type} (d : List (Topic × α)) (k : Topic) (v : α) :
    List (Topic × α) :=
  match d with
  | [] => []
  | (k₀, v₀) :: rest =>
    if k₀ = k then (k₀, v) :: rest
    else (k₀, v₀) :: dictSetExisting rest k v

/-- Model of `list.remove(s)`: delete the first occurrence of `s`,
returning `none` (Python `ValueError`) when `s` does not occur. -/
def listRemoveFirst {α : Type} [DecidableEq α] (l : List α) (s : α) : Option (List α) :=
  match l with
  | [] => none
  | x :: rest => if x = s then some rest else (listRemoveFirst rest s).map (x :: ·)

/-- State of a `Provider` object: the pending-message queue and the
`message -> list of subscribers` registry, `σ` being the type of
subscriber handles. -/
structure Provider (σ : Type) where
  message_queue : List Topic
  subscribers : List (Topic × List σ)
deriving Repr, DecidableEq

/-- Model of `Provider.notify`: `self.message_queue.append(message)`. -/
def Provider.notify {σ : Type} (p : Provider σ) (m : Topic) : Provider σ :=
  { p with message_queue := p.message_queue ++ [m] }

/-- Model of `Provider.subscribe`:
`self.subscribers.setdefault(message, []).append(subscriber)`. -/
def Provider.subscribe {σ : Type} (p : Provider σ) (m : Topic) (s : σ) : Provider σ :=
  { p with subscribers := dictSetdefaultAppend p.subscribers m s }

/-- The two Python exceptions `Provider.unsubscribe` can raise:
`KeyError` from `self.subscribers[message]` and `ValueError` from
`list.remove`. -/
inductive LookupFailure : Type
  | keyError
  | valueError
deriving Repr, DecidableEq

/-- Model of `Provider.unsubscribe`: `self.subscribers[message].remove(subscriber)`.
An error carries the provider state at the raise, which is the unchanged
input state (both the dict lookup and a failing `remove` mutate nothing). -/
def Provider.unsubscribe {σ : Type} [DecidableEq σ] (p : Provider σ) (m : Topic) (s : σ) :
    Except (LookupFailure × Provider σ) (Provider σ) :=
  match dictFind p.subscribers m with
  | none => .error (.keyError, p)
  | some l =>
    match listRemoveFirst l s with
    | none => .error (.valueError, p)
    | some l₂ => .ok { p with subscribers := dictSetExisting p.subscribers m l₂ }

/-- Run the reactions of one message over a subscriber list, in list
order. `run s m = some e` models `subscriber.run(message)` raising the
exception `e`; the raising invocation is recorded and the loop stops.
Returns the invocation trace and the raised exception, if any. -/
def runSubs {σ ε : Type} (run : σ → Topic → Option ε) (m : Topic) :
    List σ → List (σ × Topic) × Option ε
  | [] => ([], none)
  | s :: rest =>
    match run s m with
    | some e => ([(s, m)], some e)
    | none =>
      let r := runSubs run m rest
      ((s, m) :: r.1, r.2)

/-- The nested loop of `Provider.update`: drain the queue in FIFO order,
delivering each message to `self.subscribers.get(message, ())`. -/
def deliverAll {σ ε : Type} (run : σ → Topic → Option ε)
    (subs : List (Topic × List σ)) : List Topic → List (σ × Topic) × Option ε
  | [] => ([], none)
  | m :: rest =>
    let r := runSubs run m (dictGetD subs m [])
    match r.2 with
    | some e => (r.1, some e)
    | none =>
      let r₂ := deliverAll run subs rest
      (r.1 ++ r₂.1, r₂.2)

/-- Model of `Provider.update`: the delivery loop followed by
`self.message_queue.clear()`.  The `clear()` sits after the loop with no
`try`/`finally`, so it only executes when no reaction raised; a raised
exception propagates with the provider state unchanged (the loop itself
mutates neither the queue nor the registry). -/
def Provider.update {σ ε : Type} (run : σ → Topic → Option ε) (p : Provider σ) :
    List (σ × Topic) × Except (ε × Provider σ) (Provider σ) :=
  let r := deliverAll run p.subscribers p.message_queue
  match r.2 with
  | some e => (r.1, .error (e, p))
  | none => (r.1, .ok { p with message_queue := [] })

/-- State of a `Publisher` object: only the reference to its provider. -/
structure Publisher (σ : Type) where
  provider : Provider σ
deriving Repr, DecidableEq

/-- Model of `Publisher.publish`: `self.provider.notify(message)`. -/
def Publisher.publish {σ : Type} (pub : Publisher σ) (m : Topic) : Publisher σ :=
  { pub with provider := pub.provider.notify m }

/-- The spec side of the `Publisher` contract, written from its words:
"`publish(topic)` forwards directly to `Provider.notify(topic)`", the
publisher keeping no state beyond the provider reference. -/
def publishSpec {σ : Type} (pub : Publisher σ) (m : Topic) : Publisher σ :=
  Publisher.mk (Provider.notify pub.provider m)

/-- Calls a client can make on a provider before draining it. -/
inductive Ev (σ : Type) : Type
  | sub (t : Topic) (s : σ)
  | ntf (t : Topic)

/-- Execute one call on the provider. -/
def applyEv {σ : Type} (p : Provider σ) : Ev σ → Provider σ
  | .sub t s => p.subscribe t s
  | .ntf t => p.notify t

/-- Execute a call sequence left to right. -/
def applyEvs {σ : Type} (p : Provider σ) (evs : List (Ev σ)) : Provider σ :=
  evs.foldl applyEv p

/-- Number of occurrences of the invocation `(s, t)` in a trace. -/
def countPair {σ : Type} [DecidableEq σ] : List (σ × Topic) → σ → Topic → Nat
  | [], _, _ => 0
  | pr :: rest, s, t => (if pr = (s, t) then 1 else 0) + countPair rest s t

/-- A reaction that always raises, for exercising the delivery loop's
error path. -/
def raisingRun : String → Topic → Option Unit := fun _ _ => some ()

/-- A provider with one pending message and one subscriber on its
topic. -/
def cexProvider : Provider String :=
  ⟨["t"], [("t", ["A"])]⟩

end PubSub

namespace Borg

/-- A heap of Python instance dicts.  For this module only the `"state"`
key is ever read or written, so a dict is modelled as the optional value
of that key (`none` = key absent, as for a freshly allocated
`__dict__`). -/
abbrev Heap := List (Option String)

/-- Read the `"state"` entry of the dict at heap address `r`. -/
def heapRead (h : Heap) (r : Nat) : Option String :=
  (h[r]?).getD none

/-- Write the `"state"` entry of the dict at heap address `r`. -/
def heapWrite (h : Heap) (r : Nat) (v : Option String) : Heap :=
  h.set r v

/-- Global state of the borg module: the heap, the address of the
class-level `BorgMixin.__monostate` dict, and for each constructed
`SharedState` instance (in construction order) the address its
`__dict__` points to. -/
structure World where
  heap : Heap
  monostateRef : Nat
  insts : List Nat
deriving Repr, DecidableEq

/-- Module import time: `__monostate = {}` allocates one empty dict,
no instances exist yet. -/
def World.init : World :=
  { heap := [none], monostateRef := 0, insts := [] }

/-- Model of `SharedState.__init__(self, state=None)`: Python allocates a fresh
empty `__dict__` for the new object; `BorgMixin.__init__` rebinds
`self.__dict__` to `__monostate`; then the body either stores the given
state, keeps the existing shared state, or stores `"initialized"` when
`hasattr(self, "state")` is false. -/
def constructShared (arg : Option String) (w : World) : World :=
  let heap₁ := w.heap ++ [none]
  let r := w.monostateRef
  let heap₂ :=
    match arg with
    | some s => heapWrite heap₁ r (some s)
    | none =>
      match heapRead heap₁ r with
      | some _ => heap₁
      | none => heapWrite heap₁ r (some "initialized")
  { heap := heap₂, monostateRef := w.monostateRef, insts := w.insts ++ [r] }

/-- Read `instance.state` of the `i`-th constructed instance: follow its
`__dict__` reference into the heap. -/
def readState (w : World) (i : Nat) : Option String :=
  heapRead w.heap ((w.insts[i]?).getD 0)

/-- Assign `instance.state = v` on the `i`-th constructed instance:
write through its `__dict__` reference. -/
def setState (w : World) (i : Nat) (v : String) : World :=
  { w with heap := heapWrite w.heap ((w.insts[i]?).getD 0) (some v) }

/-- Worlds reachable from module import by constructing instances and
assigning `state` attributes. -/
inductive Reachable : World → Prop
  | init : Reachable World.init
  | construct (a : Option String) (w : World) : Reachable w → Reachable (constructShared a w)
  | set (i : Nat) (v : String) (w : World) : Reachable w → Reachable (setState w i v)

end Borg

namespace Factory

/-- The three concrete `Localizable` subclasses declared in the module. -/
inductive LocalizerClass : Type
  | english
  | greek
  | spanish
deriving Repr, DecidableEq

/-- ASCII case folding of one character, `'A'..'Z'` mapped down by 32. -/
def lowerChar (c : Char) : Char :=
  if 65 ≤ c.toNat ∧ c.toNat ≤ 90 then Char.ofNat (c.toNat + 32) else c

/-- Model of Python `str.lower()` on the ASCII strings this module
uses. -/
def pyLower (s : String) : String :=
  ⟨s.data.map lowerChar⟩

/-- Python dict assignment `d[k] = c`: replace in place when the key
exists, append otherwise. -/
def dictAssign (d : List (String × LocalizerClass)) (k : String) (c : LocalizerClass) :
    List (String × LocalizerClass) :=
  match d with
  | [] => [(k, c)]
  | (k₀, c₀) :: rest =>
    if k₀ = k then (k₀, c) :: rest
    else (k₀, c₀) :: dictAssign rest k c

/-- Model of `Localizable.__init_subclass__(cls, language)`: record the subclass
under `language.lower()` when `language is not None`. -/
def initSubclass (reg : List (String × LocalizerClass)) (language : Option String)
    (cls : LocalizerClass) : List (String × LocalizerClass) :=
  match language with
  | none => reg
  | some l => dictAssign reg (pyLower l) cls

/-- The subclass declarations of the module, in source order, with the
`language` argument each declaration passes. -/
def declaredSubclasses : List (Option String × LocalizerClass) :=
  [(some "english", .english), (some "greek", .greek), (some "spanish", .spanish)]

/-- Contents of `Localizable.registry` after the module body has run: every
declaration fires `__init_subclass__` once, in source order. -/
def registry : List (String × LocalizerClass) :=
  declaredSubclasses.foldl (fun r p => initSubclass r p.1 p.2) []

/-- Association-list lookup for the registry, `registry[language]`. -/
def regFind (d : List (String × LocalizerClass)) (k : String) : Option LocalizerClass :=
  match d with
  | [] => none
  | (k₀, v) :: rest => if k₀ = k then some v else regFind rest k

/-- Model of `get_localizer(language)`: `Localizable.registry[language]()`; the
argument is used verbatim (no lowercasing) and a missing key raises
`KeyError`.  The returned value names the subclass that gets
instantiated. -/
def get_localizer (language : String) : Except Unit LocalizerClass :=
  match regFind registry language with
  | some c => .ok c
  | none => .error ()

end Factory

namespace PubSub

/-- Key-wise description of `setdefault(k, []).append(s)`: the list at
`k` grows by `s` (created as `[s]` when absent), every other key is
untouched. -/
theorem dictFind_setdefaultAppend {α : Type} (d : List (Topic × List α)) (k k₁ : Topic)
    (s : α) :
    dictFind (dictSetdefaultAppend d k s) k₁ =
      if k₁ = k then some (dictGetD d k [] ++ [s]) else dictFind d k₁ := by
  induction d with
  | nil =>
    by_cases h : k₁ = k
    · subst h
      simp [dictSetdefaultAppend, dictFind, dictGetD]
    · have h₂ : ¬k = k₁ := fun hc => h hc.symm
      simp [dictSetdefaultAppend, dictFind, dictGetD, h, h₂]
  | cons hd tl ih =>
    obtain ⟨k₀, v⟩ := hd
    by_cases h₀ : k₀ = k
    · subst h₀
      by_cases h₁ : k₁ = k₀ <;>
        simp [dictSetdefaultAppend, dictFind, dictGetD, h₁, eq_comm]
    · by_cases h₁ : k₁ = k
      · subst h₁
        have h₂ : ¬k₀ = k₁ := h₀
        simp [dictSetdefaultAppend, dictFind, dictGetD, h₀, h₂, ih]
      · by_cases h₂ : k₀ = k₁ <;>
          simp [dictSetdefaultAppend, dictFind, dictGetD, h₀, h₁, h₂, ih]

/-- Default-lookup version of `dictFind_setdefaultAppend`. -/
theorem dictGetD_setdefaultAppend {α : Type} (d : List (Topic × List α)) (k k₁ : Topic)
    (s : α) :
    dictGetD (dictSetdefaultAppend d k s) k₁ [] =
      if k₁ = k then dictGetD d k₁ [] ++ [s] else dictGetD d k₁ [] := by
  by_cases h : k₁ = k <;>
    simp [dictGetD, dictFind_setdefaultAppend, h]

/-- Python `list.remove` raises `ValueError` exactly when the element is
absent. -/
theorem listRemoveFirst_eq_none_iff {α : Type} [DecidableEq α] (l : List α) (s : α) :
    listRemoveFirst l s = none ↔ s ∉ l := by
  induction l with
  | nil => simp [listRemoveFirst]
  | cons x rest ih =>
    by_cases h : x = s
    · simp [listRemoveFirst, h]
    · have h₂ : ¬s = x := fun hc => h hc.symm
      have hstep : listRemoveFirst (x :: rest) s = (listRemoveFirst rest s).map (x :: ·) := by
        simp [listRemoveFirst, h]
      rw [hstep, Option.map_eq_none', ih]
      simp [h₂]

/-- Successful `list.remove` deletes exactly the first occurrence. -/
theorem listRemoveFirst_split {α : Type} [DecidableEq α] (l : List α) (s : α)
    (h : s ∈ l) :
    ∃ l₁ l₂, l = l₁ ++ s :: l₂ ∧ s ∉ l₁ ∧ listRemoveFirst l s = some (l₁ ++ l₂) := by
  induction l with
  | nil => cases h
  | cons x rest ih =>
    by_cases hx : x = s
    · subst hx
      exact ⟨[], rest, rfl, by simp, by simp [listRemoveFirst]⟩
    · have hrest : s ∈ rest := by
        rcases List.mem_cons.mp h with h₁ | h₁
        · exact absurd h₁.symm hx
        · exact h₁
      obtain ⟨l₁, l₂, hsplit, hnot, hrm⟩ := ih hrest
      refine ⟨x :: l₁, l₂, by simp [hsplit], ?_, ?_⟩
      · simp [hnot]
        exact fun hc => hx hc.symm
      · simp [listRemoveFirst, hx, hrm]

/-- Key-wise description of replacing the list stored at an existing
key. -/
theorem dictFind_setExisting {α : Type} (d : List (Topic × α)) (k k₁ : Topic) (v : α) :
    dictFind (dictSetExisting d k v) k₁ =
      if k₁ = k then (dictFind d k).map (fun _ => v) else dictFind d k₁ := by
  induction d with
  | nil =>
    by_cases h : k₁ = k <;> simp [dictSetExisting, dictFind, h]
  | cons hd tl ih =>
    obtain ⟨k₀, v₀⟩ := hd
    by_cases h₀ : k₀ = k
    · subst h₀
      by_cases h₁ : k₁ = k₀ <;>
        simp [dictSetExisting, dictFind, h₁, eq_comm]
    · by_cases h₁ : k₁ = k
      · subst h₁
        have h₂ : ¬k₀ = k₁ := h₀
        simp [dictSetExisting, dictFind, h₀, h₂, ih]
      · by_cases h₂ : k₀ = k₁ <;>
          simp [dictSetExisting, dictFind, h₀, h₁, h₂, ih]

end PubSub

namespace PubSub

/-- With reactions that never raise, one message's inner loop invokes
every subscriber once, in list order. -/
theorem runSubs_no_raise {σ ε : Type} (run : σ → Topic → Option ε)
    (hrun : ∀ a m, run a m = none) (m : Topic) (l : List σ) :
    runSubs run m l = (l.map (fun s => (s, m)), none) := by
  induction l with
  | nil => rfl
  | cons s rest ih => simp [runSubs, hrun, ih]

/-- With reactions that never raise, the drain loop produces one block
of invocations per queued message, blocks in FIFO queue order. -/
theorem deliverAll_no_raise {σ ε : Type} (run : σ → Topic → Option ε)
    (hrun : ∀ a m, run a m = none) (subs : List (Topic × List σ)) (q : List Topic) :
    deliverAll run subs q =
      (q.flatMap (fun m => (dictGetD subs m []).map (fun s => (s, m))), none) := by
  induction q with
  | nil => rfl
  | cons m rest ih => simp [deliverAll, runSubs_no_raise run hrun, ih]

/-- With reactions that never raise, `update` returns the full trace and
clears the queue, leaving the registry untouched. -/
theorem update_no_raise {σ ε : Type} (run : σ → Topic → Option ε)
    (hrun : ∀ a m, run a m = none) (p : Provider σ) :
    Provider.update run p =
      (p.message_queue.flatMap (fun m => (dictGetD p.subscribers m []).map (fun s => (s, m))),
        .ok ⟨[], p.subscribers⟩) := by
  simp [Provider.update, deliverAll_no_raise run hrun]

/-- Pair counting distributes over trace concatenation. -/
theorem countPair_append {σ : Type} [DecidableEq σ] (l₁ l₂ : List (σ × Topic)) (s : σ)
    (t : Topic) :
    countPair (l₁ ++ l₂) s t = countPair l₁ s t + countPair l₂ s t := by
  induction l₁ with
  | nil => simp [countPair]
  | cons pr rest ih => simp [countPair, ih]; ring

/-- Counting `(s, t)` in the invocation block of one message `m`. -/
theorem countPair_block {σ : Type} [DecidableEq σ] (l : List σ) (m : Topic) (s : σ)
    (t : Topic) :
    countPair (l.map (fun x => (x, m))) s t = if m = t then l.count s else 0 := by
  induction l with
  | nil => simp [countPair]
  | cons x rest ih =>
    by_cases hm : m = t
    · subst hm
      by_cases hx : x = s <;>
        simp [countPair, List.count_cons, hx, ih, Nat.add_comm]
    · have hne : ¬(x, m) = (s, t) := by
        intro hc
        exact hm (congrArg Prod.snd hc)
      simp [countPair, hne, ih, hm]

/-- Each subscriber handle receives, per call to `update` with
non-raising reactions, exactly (times queued) x (times subscribed)
invocations of a given topic. -/
theorem countPair_trace {σ ε : Type} [DecidableEq σ] (run : σ → Topic → Option ε)
    (hrun : ∀ a m, run a m = none) (p : Provider σ) (s : σ) (t : Topic) :
    countPair (Provider.update run p).1 s t =
      p.message_queue.count t * (dictGetD p.subscribers t []).count s := by
  rw [update_no_raise run hrun]
  induction p.message_queue with
  | nil => simp [countPair]
  | cons m rest ih =>
    rw [List.flatMap_cons, countPair_append, countPair_block, ih, List.count_cons]
    by_cases hm : m = t
    · subst hm
      simp [Nat.add_mul, Nat.add_comm]
    · have : ¬(m == t) = true := by simpa using hm
      simp [hm, this]

/-- Applying a block of `notify` calls appends their topics to the queue
in call order and does not touch the registry. -/
theorem applyEvs_ntf {σ : Type} (p : Provider σ) (ts : List Topic) :
    applyEvs p (ts.map Ev.ntf) =
      ⟨p.message_queue ++ ts, p.subscribers⟩ := by
  induction ts generalizing p with
  | nil => simp [applyEvs]
  | cons t rest ih =>
    simp [applyEvs, List.foldl_cons] at ih ⊢
    rw [show applyEv p (Ev.ntf t) = p.notify t from rfl, ih]
    simp [Provider.notify]

/-- Applying a block of `subscribe` calls keeps the queue and gives each
topic the handles subscribed to it, in call order. -/
theorem applyEvs_sub {σ : Type} (p : Provider σ) (prs : List (Topic × σ)) (t : Topic) :
    (applyEvs p (prs.map (fun pr => Ev.sub pr.1 pr.2))).message_queue = p.message_queue ∧
    dictGetD (applyEvs p (prs.map (fun pr => Ev.sub pr.1 pr.2))).subscribers t [] =
      dictGetD p.subscribers t [] ++ (prs.filter (fun pr => pr.1 = t)).map Prod.snd := by
  induction prs generalizing p with
  | nil => simp [applyEvs]
  | cons pr rest ih =>
    obtain ⟨t₀, s₀⟩ := pr
    have hstep : applyEvs p ((((t₀, s₀) : Topic × σ) :: rest).map (fun pr => Ev.sub pr.1 pr.2)) =
        applyEvs (p.subscribe t₀ s₀) (rest.map (fun pr => Ev.sub pr.1 pr.2)) := rfl
    rw [hstep]
    obtain ⟨ihq, ihs⟩ := ih (p.subscribe t₀ s₀)
    refine ⟨by rw [ihq]; rfl, ?_⟩
    rw [ihs]
    by_cases ht : t₀ = t
    · subst ht
      simp [Provider.subscribe, dictGetD_setdefaultAppend, List.filter_cons]
    · have ht₂ : ¬t = t₀ := fun hc => ht hc.symm
      simp [Provider.subscribe, dictGetD_setdefaultAppend, ht, ht₂, List.filter_cons]

end PubSub

namespace PubSub

/-- Helper: removing `s` from `l₁ ++ s :: l₂` with `s ∉ l₁` deletes
exactly that occurrence. -/
theorem listRemoveFirst_append {α : Type} [DecidableEq α] (l₁ l₂ : List α) (s : α)
    (h : s ∉ l₁) : listRemoveFirst (l₁ ++ s :: l₂) s = some (l₁ ++ l₂) := by
  induction l₁ with
  | nil => simp [listRemoveFirst]
  | cons x rest ih =>
    have hx : ¬x = s := fun hc => h (by simp [hc])
    have hrest : s ∉ rest := fun hr => h (List.mem_cons_of_mem _ hr)
    simp [listRemoveFirst, hx, ih hrest]

/-- Claim C1, counterexample: with one pending message `"t"` and one
subscriber on `"t"` whose reaction raises, `update` terminates by
propagating the exception and the pending-message queue is NOT empty
afterwards — it still holds `["t"]`, because `clear()` sits after the
loop and is never reached.  This refutes "the queue is cleared
unconditionally (even if a subscriber's reaction raised)". -/
theorem update_unconditional_clear_cex :
    (Provider.update raisingRun cexProvider).2 = .error ((), cexProvider) ∧
    cexProvider.message_queue = ["t"] ∧ cexProvider.message_queue ≠ [] :=
  ⟨rfl, rfl, by decide⟩

/-- Claim C1, amended: when `update` returns normally the queue is empty
afterwards (and the registry untouched); when a subscriber's reaction
raises, the exception propagates and the provider is left exactly as it
was, the queue retaining all its messages. -/
theorem update_clears_queue_amended {σ ε : Type} (run : σ → Topic → Option ε)
    (p : Provider σ) :
    (∀ q, (Provider.update run p).2 = .ok q →
      q.message_queue = [] ∧ q.subscribers = p.subscribers) ∧
    (∀ e q, (Provider.update run p).2 = .error (e, q) → q = p) := by
  constructor
  · intro q hq
    simp only [Provider.update] at hq
    cases h : (deliverAll run p.subscribers p.message_queue).2 with
    | none =>
      rw [h] at hq
      simp at hq
      rw [← hq]
      exact ⟨rfl, rfl⟩
    | some e =>
      rw [h] at hq
      simp at hq
  · intro e q hq
    simp only [Provider.update] at hq
    cases h : (deliverAll run p.subscribers p.message_queue).2 with
    | none =>
      rw [h] at hq
      simp at hq
    | some e₀ =>
      rw [h] at hq
      simp at hq
      exact hq.2.symm

/-- Witness for the amended C1: a concrete normal return with an empty
queue afterwards. -/
theorem update_clears_queue_amended_witness :
    (⟨[], ([("t", ["A"])] : List (Topic × List String))⟩ : Provider String).message_queue = [] ∧
    (⟨[], [("t", ["A"])]⟩ : Provider String).subscribers = cexProvider.subscribers :=
  (update_clears_queue_amended (fun _ _ => (none : Option Unit)) cexProvider).1
    ⟨[], [("t", ["A"])]⟩ (by rfl)

/-- Claim C2: after any subscribe calls followed by any notify calls on
a fresh provider, one `update` with non-raising reactions produces
exactly one invocation block per notification, blocks in notification
FIFO order, each block running that topic's subscribers in subscription
order; the pair count says each handle reacts once per matching
notification and per subscription. -/
theorem update_delivery_order {σ ε : Type} [DecidableEq σ] (run : σ → Topic → Option ε)
    (hrun : ∀ a m, run a m = none) (prs : List (Topic × σ)) (ts : List Topic) :
    Provider.update run
        (applyEvs ⟨[], []⟩ (prs.map (fun pr => Ev.sub pr.1 pr.2) ++ ts.map Ev.ntf)) =
      (ts.flatMap (fun m =>
          ((prs.filter (fun pr => pr.1 = m)).map Prod.snd).map (fun s => (s, m))),
        .ok ⟨[], (applyEvs (⟨[], []⟩ : Provider σ)
          (prs.map (fun pr => Ev.sub pr.1 pr.2))).subscribers⟩) ∧
    ∀ s t,
      countPair (Provider.update run
          (applyEvs ⟨[], []⟩ (prs.map (fun pr => Ev.sub pr.1 pr.2) ++ ts.map Ev.ntf))).1 s t =
        ts.count t * ((prs.filter (fun pr => pr.1 = t)).map Prod.snd).count s := by
  have happ : applyEvs (⟨[], []⟩ : Provider σ)
      (prs.map (fun pr => Ev.sub pr.1 pr.2) ++ ts.map Ev.ntf) =
      applyEvs (applyEvs ⟨[], []⟩ (prs.map (fun pr => Ev.sub pr.1 pr.2))) (ts.map Ev.ntf) := by
    simp [applyEvs, List.foldl_append]
  have hq := (applyEvs_sub (⟨[], []⟩ : Provider σ) prs "").1
  have hgetD : ∀ t, dictGetD (applyEvs (⟨[], []⟩ : Provider σ)
      (prs.map (fun pr => Ev.sub pr.1 pr.2))).subscribers t [] =
      (prs.filter (fun pr => pr.1 = t)).map Prod.snd := by
    intro t
    have h := (applyEvs_sub (⟨[], []⟩ : Provider σ) prs t).2
    simpa [dictGetD, dictFind] using h
  rw [happ, applyEvs_ntf]
  have hq₂ : (applyEvs (⟨[], []⟩ : Provider σ)
      (prs.map (fun pr => Ev.sub pr.1 pr.2))).message_queue = [] := by
    simpa using (applyEvs_sub (⟨[], []⟩ : Provider σ) prs "").1
  constructor
  · rw [update_no_raise run hrun]
    simp only [hq₂, List.nil_append, hgetD]
  · intro s t
    rw [countPair_trace run hrun]
    simp only [hq₂, List.nil_append, hgetD]

/-- Witness for C2: subscribers `A` then `B` on `"t"`, two
notifications of `"t"`, reactions in order `A,B,A,B`, queue empty. -/
theorem update_delivery_order_witness :
    Provider.update (fun _ _ => (none : Option Unit))
        (applyEvs (⟨[], []⟩ : Provider String)
          (([("t", "A"), ("t", "B")] : List (Topic × String)).map
              (fun pr => Ev.sub pr.1 pr.2) ++
            (["t", "t"] : List Topic).map Ev.ntf)) =
      ([("A", "t"), ("B", "t"), ("A", "t"), ("B", "t")],
        .ok ⟨[], [("t", ["A", "B"])]⟩) := by
  have h := (update_delivery_order (fun _ _ => (none : Option Unit)) (fun _ _ => rfl)
    [("t", "A"), ("t", "B")] ["t", "t"]).1
  simpa using h

/-- Claim C3: `unsubscribe` raises a lookup failure (`KeyError` on a
missing topic, `ValueError` on a missing handle) exactly when the topic
has no list or the handle is absent from it, the failure carries the
provider state unchanged, and only such states fail. -/
theorem unsubscribe_failure_conditions {σ : Type} [DecidableEq σ] (p : Provider σ)
    (m : Topic) (s : σ) :
    (dictFind p.subscribers m = none →
      Provider.unsubscribe p m s = .error (.keyError, p)) ∧
    (∀ l, dictFind p.subscribers m = some l → s ∉ l →
      Provider.unsubscribe p m s = .error (.valueError, p)) ∧
    ((∃ f q, Provider.unsubscribe p m s = .error (f, q)) →
      dictFind p.subscribers m = none ∨ s ∉ dictGetD p.subscribers m []) ∧
    (∀ f q, Provider.unsubscribe p m s = .error (f, q) → q = p) := by
  cases h : dictFind p.subscribers m with
  | none =>
    have hu : Provider.unsubscribe p m s = .error (.keyError, p) := by
      simp [Provider.unsubscribe, h]
    refine ⟨fun _ => hu, ?_, fun _ => Or.inl rfl, ?_⟩
    · intro l hl
      cases hl
    · intro f q hq
      rw [hu] at hq
      cases hq
      rfl
  | some l =>
    cases hr : listRemoveFirst l s with
    | none =>
      have hu : Provider.unsubscribe p m s = .error (.valueError, p) := by
        simp [Provider.unsubscribe, h, hr]
      have hnot : s ∉ l := (listRemoveFirst_eq_none_iff l s).mp hr
      refine ⟨?_, ?_, ?_, ?_⟩
      · intro hn
        cases hn
      · intro l₀ hl₀ _
        cases hl₀
        exact hu
      · intro _
        refine Or.inr ?_
        simpa [dictGetD, h] using hnot
      · intro f q hq
        rw [hu] at hq
        cases hq
        rfl
    | some l₂ =>
      have hu : Provider.unsubscribe p m s =
          .ok ⟨p.message_queue, dictSetExisting p.subscribers m l₂⟩ := by
        simp [Provider.unsubscribe, h, hr]
      have hmem : s ∈ l := by
        by_contra hc
        rw [(listRemoveFirst_eq_none_iff l s).mpr hc] at hr
        cases hr
      refine ⟨?_, ?_, ?_, ?_⟩
      · intro hn
        cases hn
      · intro l₀ hl₀ hns
        cases hl₀
        exact absurd hmem hns
      · intro hex
        obtain ⟨f, q, hq⟩ := hex
        rw [hu] at hq
        cases hq
      · intro f q hq
        rw [hu] at hq
        cases hq

/-- Witness for C3: unsubscribing from an unregistered topic fails with
a `KeyError` carrying the unchanged registry. -/
theorem unsubscribe_failure_conditions_witness :
    Provider.unsubscribe (⟨[], [("t", ["A"])]⟩ : Provider String) "u" "A" =
      .error (.keyError, ⟨[], [("t", ["A"])]⟩) :=
  (unsubscribe_failure_conditions (⟨[], [("t", ["A"])]⟩ : Provider String) "u" "A").1 (by rfl)

end PubSub

namespace PubSub

/-- Claim C4: `subscribe` appends the handle to the end of the topic's
list, creating the list when the topic is absent, keeps the queue and
the other topics untouched, and never deduplicates: subscribing the same
handle twice stores it twice, and, once the handle is doubly subscribed,
it reacts twice per matching queued notification. -/
theorem subscribe_appends_no_dedup {σ ε : Type} [DecidableEq σ] (run : σ → Topic → Option ε)
    (p : Provider σ) (t : Topic) (s : σ)
    (hrun : ∀ a m, run a m = none) (hnew : s ∉ dictGetD p.subscribers t []) :
    (p.subscribe t s).message_queue = p.message_queue ∧
    dictGetD (p.subscribe t s).subscribers t [] = dictGetD p.subscribers t [] ++ [s] ∧
    (dictFind p.subscribers t = none →
      dictFind (p.subscribe t s).subscribers t = some [s]) ∧
    (∀ t₁, t₁ ≠ t → dictFind (p.subscribe t s).subscribers t₁ = dictFind p.subscribers t₁) ∧
    dictGetD ((p.subscribe t s).subscribe t s).subscribers t [] =
      dictGetD p.subscribers t [] ++ [s, s] ∧
    countPair (Provider.update run ((p.subscribe t s).subscribe t s)).1 s t =
      2 * p.message_queue.count t := by
  have h₁ : dictGetD (p.subscribe t s).subscribers t [] =
      dictGetD p.subscribers t [] ++ [s] := by
    simp [Provider.subscribe, dictGetD_setdefaultAppend]
  have h₂ : dictGetD ((p.subscribe t s).subscribe t s).subscribers t [] =
      dictGetD p.subscribers t [] ++ [s, s] := by
    simp [Provider.subscribe, dictGetD_setdefaultAppend, dictGetD_setdefaultAppend, h₁]
  refine ⟨rfl, h₁, ?_, ?_, h₂, ?_⟩
  · intro hnone
    simp [Provider.subscribe, dictFind_setdefaultAppend, dictGetD, hnone]
  · intro t₁ ht₁
    simp [Provider.subscribe, dictFind_setdefaultAppend, ht₁]
  · rw [countPair_trace run hrun]
    have hqueue : ((p.subscribe t s).subscribe t s).message_queue = p.message_queue := rfl
    rw [hqueue, h₂]
    have hcnt : (dictGetD p.subscribers t [] ++ [s, s]).count s = 2 := by
      rw [List.count_append, List.count_eq_zero.mpr hnew]
      simp
    rw [hcnt, Nat.mul_comm]

/-- Witness for C4: subscribing `A` twice to `"t"` on a provider with
`"t"` queued once yields two reactions. -/
theorem subscribe_appends_no_dedup_witness :
    ("A" ∉ dictGetD (([] : List (Topic × List String))) "t" []) ∧
    countPair (Provider.update (fun _ _ => (none : Option Unit))
        (((⟨["t"], []⟩ : Provider String).subscribe "t" "A").subscribe "t" "A")).1 "A" "t" =
      2 * (["t"] : List Topic).count "t" :=
  ⟨by decide,
    (subscribe_appends_no_dedup (fun _ _ => (none : Option Unit))
      (⟨["t"], []⟩ : Provider String) "t" "A" (fun _ _ => rfl) (by decide)).2.2.2.2.2⟩

/-- Claim C5: `notify` only appends its topic to the end of the
pending-message queue — registry untouched, duplicates queued — and is
total, so it always succeeds and invokes no reaction (its definition
never calls a subscriber's `run`). -/
theorem notify_appends_only {σ : Type} (p : Provider σ) (m : Topic) :
    Provider.notify p m = ⟨p.message_queue ++ [m], p.subscribers⟩ ∧
    (Provider.notify p m).subscribers = p.subscribers ∧
    ((Provider.notify p m).notify m).message_queue = p.message_queue ++ [m, m] := by
  refine ⟨rfl, rfl, ?_⟩
  simp [Provider.notify]

/-- Claim C6: notifying a topic with no registered subscriber list and
then running `update` completes without error and invokes no reaction:
the `get(message, ())` lookup yields the empty tuple instead of
failing. -/
theorem notify_update_unregistered {σ ε : Type} [DecidableEq σ] (run : σ → Topic → Option ε)
    (subs : List (Topic × List σ)) (t : Topic) (hnone : dictFind subs t = none) :
    Provider.update run (Provider.notify ⟨[], subs⟩ t) = ([], .ok ⟨[], subs⟩) := by
  simp [Provider.notify, Provider.update, deliverAll, runSubs, dictGetD, hnone]

/-- Witness for C6: the spec's `"silence"` scenario, no reactions and a
normal return. -/
theorem notify_update_unregistered_witness :
    dictFind ([("other", ["A"])] : List (Topic × List String)) "silence" = none ∧
    Provider.update (fun _ _ => (none : Option Unit))
        (Provider.notify (⟨[], [("other", ["A"])]⟩ : Provider String) "silence") =
      ([], .ok ⟨[], [("other", ["A"])]⟩) :=
  ⟨by rfl, notify_update_unregistered (fun _ _ => (none : Option Unit)) _ "silence" (by rfl)⟩

/-- Claim C7: when the handle occurs in the topic's list (`l₁` before
the first occurrence, `l₂` after it), `unsubscribe` succeeds, deletes
exactly that first occurrence — later occurrences in `l₂` survive —
keeps the queue, and leaves every other topic's list unchanged. -/
theorem unsubscribe_removes_first_occurrence {σ : Type} [DecidableEq σ] (p : Provider σ)
    (m : Topic) (s : σ) (l₁ l₂ : List σ)
    (hsplit : dictGetD p.subscribers m [] = l₁ ++ s :: l₂) (hfirst : s ∉ l₁) :
    Provider.unsubscribe p m s =
      .ok ⟨p.message_queue, dictSetExisting p.subscribers m (l₁ ++ l₂)⟩ ∧
    dictGetD (dictSetExisting p.subscribers m (l₁ ++ l₂)) m [] = l₁ ++ l₂ ∧
    ∀ t₁, t₁ ≠ m → dictFind (dictSetExisting p.subscribers m (l₁ ++ l₂)) t₁ =
      dictFind p.subscribers t₁ := by
  cases h : dictFind p.subscribers m with
  | none =>
    rw [dictGetD, h] at hsplit
    simp at hsplit
  | some l =>
    have hl : l = l₁ ++ s :: l₂ := by
      rw [dictGetD, h] at hsplit
      simpa using hsplit
    subst hl
    refine ⟨?_, ?_, ?_⟩
    · simp [Provider.unsubscribe, h, listRemoveFirst_append l₁ l₂ s hfirst]
    · simp [dictGetD, dictFind_setExisting, h]
    · intro t₁ ht₁
      simp [dictFind_setExisting, ht₁]

/-- Witness for C7: removing `A` from `["A", "B", "A"]` keeps the later
`A`. -/
theorem unsubscribe_removes_first_occurrence_witness :
    dictGetD ([("t", ["A", "B", "A"])] : List (Topic × List String)) "t" [] =
      [] ++ "A" :: ["B", "A"] ∧
    Provider.unsubscribe (⟨[], [("t", ["A", "B", "A"])]⟩ : Provider String) "t" "A" =
      .ok ⟨[], dictSetExisting [("t", ["A", "B", "A"])] "t" ([] ++ ["B", "A"])⟩ :=
  ⟨by rfl,
    (unsubscribe_removes_first_occurrence (⟨[], [("t", ["A", "B", "A"])]⟩ : Provider String)
      "t" "A" [] ["B", "A"] (by rfl) (by decide)).1⟩

/-- Claim C8: `Publisher.publish` coincides with the spec-side
forwarding definition and with calling `Provider.notify` directly on the
held provider; the publisher's whole state is that reference. -/
theorem publish_refines_notify {σ : Type} (pub : Publisher σ) (m : Topic) :
    Publisher.publish pub m = publishSpec pub m ∧
    (Publisher.publish pub m).provider = Provider.notify pub.provider m ∧
    Publisher.publish pub m = Publisher.mk (Provider.notify pub.provider m) :=
  ⟨rfl, rfl, rfl⟩

end PubSub

namespace Borg

/-- Writing a dict entry and reading it back at the same address. -/
theorem heapRead_write_self (h : Heap) (r : Nat) (v : Option String) (hr : r < h.length) :
    heapRead (heapWrite h r v) r = v := by
  simp [heapRead, heapWrite, List.getElem?_set_self', List.getElem?_eq_getElem hr]

/-- Allocating a fresh dict at the end of the heap does not change reads
of existing addresses. -/
theorem heapRead_alloc (h : Heap) (r : Nat) (hr : r < h.length) :
    heapRead (h ++ [none]) r = heapRead h r := by
  simp [heapRead, List.getElem?_append_left hr]

/-- Construction leaves the monostate address in range and changes
neither it nor the aliasing of existing instances. -/
theorem constructShared_components (a : Option String) (w : World) :
    (constructShared a w).monostateRef = w.monostateRef ∧
    (constructShared a w).insts = w.insts ++ [w.monostateRef] ∧
    (constructShared a w).heap.length = w.heap.length + 1 := by
  refine ⟨rfl, rfl, ?_⟩
  unfold constructShared
  cases a with
  | some s => simp [heapWrite]
  | none =>
    cases h : heapRead (w.heap ++ [none]) w.monostateRef with
    | some v => simp [h]
    | none => simp [h, heapWrite]

/-- Invariant of every reachable world: the monostate dict is allocated
and the `__dict__` of every instance is exactly that dict — the borg
aliasing established by `BorgMixin.__init__`. -/
theorem reachable_invariant (w : World) (h : Reachable w) :
    w.monostateRef < w.heap.length ∧ ∀ r ∈ w.insts, r = w.monostateRef := by
  induction h with
  | init => exact ⟨by simp [World.init], by simp [World.init]⟩
  | construct a w₀ hw ih =>
    obtain ⟨hlen, hall⟩ := ih
    obtain ⟨hm, hi, hh⟩ := constructShared_components a w₀
    refine ⟨?_, ?_⟩
    · rw [hm, hh]
      exact Nat.lt_succ_of_lt hlen
    · intro r hr
      rw [hi] at hr
      rw [hm]
      rcases List.mem_append.mp hr with h₁ | h₁
      · exact hall r h₁
      · simpa using h₁
  | set i v w₀ hw ih =>
    obtain ⟨hlen, hall⟩ := ih
    refine ⟨?_, ?_⟩
    · simpa [setState, heapWrite] using hlen
    · intro r hr
      exact hall r hr

/-- Resolution of an instance handle after one more construction: every
index up to and including the new instance dereferences to the monostate
dict. -/
theorem instRef_construct (w : World) (hall : ∀ r ∈ w.insts, r = w.monostateRef)
    (a : Option String) (i : Nat) (hi : i ≤ w.insts.length) :
    (((constructShared a w).insts)[i]?).getD 0 = w.monostateRef := by
  have hinsts : (constructShared a w).insts = w.insts ++ [w.monostateRef] := rfl
  rw [hinsts]
  rcases Nat.lt_or_ge i w.insts.length with h | h
  · rw [List.getElem?_append_left h, List.getElem?_eq_getElem h]
    exact hall _ (List.getElem_mem h)
  · have he : i = w.insts.length := Nat.le_antisymm hi h
    subst he
    simp

/-- Resolution of an existing instance handle. -/
theorem instRef_mem (w : World) (hall : ∀ r ∈ w.insts, r = w.monostateRef) (i : Nat)
    (hi : i < w.insts.length) :
    ((w.insts)[i]?).getD 0 = w.monostateRef := by
  rw [List.getElem?_eq_getElem hi]
  exact hall _ (List.getElem_mem hi)

end Borg

namespace Borg

/-- Claim C9: in any reachable world, all `SharedState` instances share
the one monostate cell: constructing with a state `s` makes every
existing instance (and the new one) read `s`; constructing with no
argument preserves an existing shared state and writes `"initialized"`
only when no state was ever set; and assigning `state` through any one
instance is observed by every instance. -/
theorem shared_state_single_cell (w : World) (hw : Reachable w) :
    (∀ s : String, ∀ i, i ≤ w.insts.length →
      readState (constructShared (some s) w) i = some s) ∧
    (∀ v : String, heapRead w.heap w.monostateRef = some v →
      ∀ i, i ≤ w.insts.length → readState (constructShared none w) i = some v) ∧
    (heapRead w.heap w.monostateRef = none →
      ∀ i, i ≤ w.insts.length →
        readState (constructShared none w) i = some "initialized") ∧
    (∀ i j : Nat, ∀ v : String, i < w.insts.length → j < w.insts.length →
      readState (setState w i v) j = some v) := by
  obtain ⟨hlen, hall⟩ := reachable_invariant w hw
  have hlen₁ : w.monostateRef < (w.heap ++ [none]).length := by
    simp only [List.length_append, List.length_cons, List.length_nil]
    exact Nat.lt_succ_of_lt hlen
  refine ⟨?_, ?_, ?_, ?_⟩
  · intro s i hi
    have href := instRef_construct w hall (some s) i hi
    simp only [readState, href]
    show heapRead (heapWrite (w.heap ++ [none]) w.monostateRef (some s)) w.monostateRef =
      some s
    exact heapRead_write_self _ _ _ hlen₁
  · intro v hv i hi
    have href := instRef_construct w hall none i hi
    simp only [readState, href]
    have h₁ : heapRead (w.heap ++ [none]) w.monostateRef = some v := by
      rw [heapRead_alloc _ _ hlen]
      exact hv
    have hworld : (constructShared none w).heap = w.heap ++ [none] := by
      show (match heapRead (w.heap ++ [none]) w.monostateRef with
        | some _ => w.heap ++ [none]
        | none => heapWrite (w.heap ++ [none]) w.monostateRef (some "initialized")) =
          w.heap ++ [none]
      rw [h₁]
    rw [hworld, heapRead_alloc _ _ hlen]
    exact hv
  · intro hv i hi
    have href := instRef_construct w hall none i hi
    simp only [readState, href]
    have h₁ : heapRead (w.heap ++ [none]) w.monostateRef = none := by
      rw [heapRead_alloc _ _ hlen]
      exact hv
    have hworld : (constructShared none w).heap =
        heapWrite (w.heap ++ [none]) w.monostateRef (some "initialized") := by
      show (match heapRead (w.heap ++ [none]) w.monostateRef with
        | some _ => w.heap ++ [none]
        | none => heapWrite (w.heap ++ [none]) w.monostateRef (some "initialized")) =
          heapWrite (w.heap ++ [none]) w.monostateRef (some "initialized")
      rw [h₁]
    rw [hworld]
    exact heapRead_write_self _ _ _ hlen₁
  · intro i j v hi hj
    have hrefi := instRef_mem w hall i hi
    have hrefj := instRef_mem w hall j hj
    simp only [readState, setState, hrefi, hrefj]
    exact heapRead_write_self _ _ _ hlen

/-- Witness for C9: `SharedState(state='foo')` then
`SharedState(state='bar')` makes the first instance read `'bar'`. -/
theorem shared_state_single_cell_witness :
    readState (constructShared (some "bar") (constructShared (some "foo") World.init)) 0 =
      some "bar" :=
  (shared_state_single_cell (constructShared (some "foo") World.init)
      (Reachable.construct _ _ Reachable.init)).1 "bar" 0 (by decide)

end Borg

namespace Factory

/-- Contents of the registry after the module body runs: the three
declarations, keyed by their lowercased language, in source order. -/
theorem registry_eq :
    registry = [("english", .english), ("greek", .greek), ("spanish", .spanish)] := by
  decide

/-- Claim C10: subclass registration lowercases the language key while
`get_localizer` looks its argument up verbatim: for each declared
subclass with language `L`, `get_localizer` returns that subclass
exactly on `pyLower L`; it succeeds only on the lowercased declared
languages and raises `KeyError` on everything else, in particular on the
capitalised spellings. -/
theorem get_localizer_lowercase_registry :
    (∀ (L : String) (cls : LocalizerClass),
      ((some L, cls) : Option String × LocalizerClass) ∈ declaredSubclasses →
        get_localizer (pyLower L) = .ok cls) ∧
    (∀ lang : String, (∃ c, get_localizer lang = .ok c) ↔
      ∃ (L : String) (cls : LocalizerClass),
        ((some L, cls) : Option String × LocalizerClass) ∈ declaredSubclasses ∧
          lang = pyLower L) ∧
    get_localizer "English" = .error () ∧
    get_localizer "Greek" = .error () ∧
    get_localizer "Spanish" = .error () := by
  refine ⟨?_, ?_, by rfl, by rfl, by rfl⟩
  · intro L cls hmem
    simp only [declaredSubclasses, List.mem_cons, List.not_mem_nil, or_false,
      Prod.mk.injEq, Option.some.injEq] at hmem
    rcases hmem with ⟨h₁, h₂⟩ | ⟨h₁, h₂⟩ | ⟨h₁, h₂⟩ <;> subst h₁ <;> subst h₂ <;> rfl
  · intro lang
    constructor
    · intro hex
      obtain ⟨c, hc⟩ := hex
      by_cases h₁ : lang = "english"
      · exact ⟨"english", .english, by decide, by rw [h₁]; rfl⟩
      · by_cases h₂ : lang = "greek"
        · exact ⟨"greek", .greek, by decide, by rw [h₂]; rfl⟩
        · by_cases h₃ : lang = "spanish"
          · exact ⟨"spanish", .spanish, by decide, by rw [h₃]; rfl⟩
          · have h₁s : ¬("english" = lang) := fun hc₀ => h₁ hc₀.symm
            have h₂s : ¬("greek" = lang) := fun hc₀ => h₂ hc₀.symm
            have h₃s : ¬("spanish" = lang) := fun hc₀ => h₃ hc₀.symm
            rw [get_localizer, registry_eq] at hc
            simp [regFind, h₁s, h₂s, h₃s] at hc
    · intro hex
      obtain ⟨L, cls, hmem, hlang⟩ := hex
      simp only [declaredSubclasses, List.mem_cons, List.not_mem_nil, or_false,
        Prod.mk.injEq, Option.some.injEq] at hmem
      rcases hmem with ⟨h₁, h₂⟩ | ⟨h₁, h₂⟩ | ⟨h₁, h₂⟩ <;> subst h₁ <;> subst h₂ <;>
        rw [hlang]
      · exact ⟨.english, rfl⟩
      · exact ⟨.greek, rfl⟩
      · exact ⟨.spanish, rfl⟩

/-- Witness for C10: the Greek declaration is registered and retrieved
via its lowercased language. -/
theorem get_localizer_lowercase_registry_witness :
    (((some "greek", LocalizerClass.greek) : Option String × LocalizerClass) ∈
      declaredSubclasses) ∧
    get_localizer (pyLower "greek") = .ok LocalizerClass.greek :=
  ⟨by decide, get_localizer_lowercase_registry.1 "greek" .greek (by decide)⟩

end Factory
